import Mathlib

/-!
Shallow embedding of the `webtraffic` traffic generator (`main.go`).

URLs, blacklist entries and response bodies are modelled as `List Char`
(Go strings / `[]byte`).  The mutable program state — the live viper
configuration (`root_urls`, `blacklist`, `min_depth`, `max_depth`,
`min_wait`, `max_wait`) together with the package-level counters
(`dataMeter`, `goodRequests`, `badRequests`) — is the structure `State`.
The network is an oracle mapping each requested URL to the outcome of
the HTTP transaction, and `math/rand` is a deterministic stream of
naturals consumed left to right.  `time.Sleep` calls have no observable
effect on this state and are dropped (only the random draw that chooses
a sleep duration is kept, because it consumes the stream).
-/

/-- Outcome of one HTTP transaction as seen by `doRequest` (main.go:201):
`reqError` models `http.NewRequest` failing, `transportError` models
`client.Do` failing (timeout, DNS, connection refused; the code sleeps
30 s there before returning the error), `readError p` models
`io.ReadAll` failing after reading the partial content `p`, and
`ok status body` models a completed exchange whose body was fully read. -/
inductive NetResult where
  | reqError : NetResult
  | transportError : NetResult
  | readError : List Char → NetResult
  | ok : Int → List Char → NetResult
deriving DecidableEq

/-- Mutable program state: the live viper keys read and written by the
core (main.go:133-189, 230-247, 277-284) plus the package-level counter
variables (main.go:36-39).  `user_agent` is read only to set a request
header, which the network oracle already abstracts, so it is omitted. -/
structure State where
  rootUrls : List (List Char)
  blacklist : List (List Char)
  minDepth : Int
  maxDepth : Int
  minWait : Int
  maxWait : Int
  dataMeter : Int
  goodRequests : Int
  badRequests : Int
deriving DecidableEq

/-- Model of `rand.Intn n`: consume one value from the stream and reduce
it modulo `n`, so the draw lies in `[0, n)` whenever `n > 0` (`Intn`
panics for `n ≤ 0`; every draw exercised by the claims has `n > 0`).
An exhausted stream draws 0. -/
def randIntn (rng : List Nat) (n : Nat) : Nat × List Nat :=
  match rng with
  | [] => (0, [])
  | v :: rest => (v % n, rest)

/-- Boolean test that `pat` is a prefix of `s`; used to model both
`strings.Contains` and the anchored pieces of the regex match. -/
def beginsWith : List Char → List Char → Bool
  | [], _ => true
  | _ :: _, [] => false
  | p :: ps, c :: cs => p == c && beginsWith ps cs

/-- Model of `strings.Contains s pat`: some suffix of `s` starts with
`pat` (the empty pattern is contained in every string). -/
def strContains (pat : List Char) : List Char → Bool
  | [] => beginsWith pat []
  | c :: t => beginsWith pat (c :: t) || strContains pat t

/-- Model of `isBlacklisted` (main.go:277): true iff some entry of the
blacklist occurs as a substring of the link. -/
def isBlacklisted (link : List Char) (blacklist : List (List Char)) : Bool :=
  blacklist.any (fun b => strContains b link)

/-- Literal `href="` — the six characters preceding the captured URL in
`linkRegex` (main.go:43). -/
def hrefMark : List Char := ['h', 'r', 'e', 'f', '=', '"']

/-- Literal `http://`. -/
def httpScheme : List Char := ['h', 't', 't', 'p', ':', '/', '/']

/-- Literal `https://`. -/
def httpsScheme : List Char := ['h', 't', 't', 'p', 's', ':', '/', '/']

/-- Drop `pat` from the front of `s` when it is a prefix, else `none`. -/
def dropStart (pat s : List Char) : Option (List Char) :=
  if beginsWith pat s then some (s.drop pat.length) else none

/-- The scheme alternative `https?://` of `linkRegex`: at most one of
the two alternatives can match at a given position (the character after
`http` decides), so trying `https://` first is exact. -/
def schemeAt (s : List Char) : Option (List Char × List Char) :=
  match dropStart httpsScheme s with
  | some r => some (httpsScheme, r)
  | none =>
    match dropStart httpScheme s with
    | some r => some (httpScheme, r)
    | none => none

/-- Anchored match of `linkRegex`, i.e. `(?:href=")(https?://[^"]+)(?:")`
(main.go:43), at the head of `s`: returns the full matched text (what
`FindAllString` yields) and the remainder of `s` after the match.  The
class `[^"]+` cannot cross a quote, so it necessarily ends at the first
quote that follows, making the match deterministic. -/
def matchHrefAt (s : List Char) : Option (List Char × List Char) :=
  match dropStart hrefMark s with
  | none => none
  | some s1 =>
    match schemeAt s1 with
    | none => none
    | some (scheme, s2) =>
      match s2.takeWhile (fun c => c != '"'), s2.dropWhile (fun c => c != '"') with
      | [], _ => none
      | _ :: _, [] => none
      | uh :: ut, c :: s4 =>
        if c = '"' then some (hrefMark ++ (scheme ++ (uh :: ut) ++ ['"']), s4) else none

/-- Fuel-driven scan modelling `linkRegex.FindAllString(content, -1)`
(main.go:259): successive non-overlapping leftmost matches; at a failed
position the scan advances one character, after a match it resumes past
the match.  Every step strictly shortens the text (a match consumes at
least its `href="` marker), so fuel `s.length` is always sufficient. -/
def findAllAux : Nat → List Char → List (List Char)
  | 0, _ => []
  | _ + 1, [] => []
  | f + 1, c :: t =>
    match matchHrefAt (c :: t) with
    | some (m, rest) => m :: findAllAux f rest
    | none => findAllAux f t

/-- Model of `linkRegex.FindAllString(string(content), -1)`. -/
def findAllLinks (s : List Char) : List (List Char) := findAllAux s.length s

/-- Loop body of `getLinks` (main.go:261-266): slice off the 6-byte
`href="` marker and the trailing quote (`link[6 : len(link)-1]`), keep
the cleaned link when it is not blacklisted. -/
def filterLinks : List (List Char) → List (List Char) → List (List Char)
  | [], _ => []
  | link :: rest, bl =>
    if isBlacklisted ((link.drop 6).dropLast) bl then filterLinks rest bl
    else ((link.drop 6).dropLast) :: filterLinks rest bl

/-- Model of `getLinks` (main.go:258): regex scan, then clean-and-filter
against the blacklist in force for the whole call. -/
def getLinks (content : List Char) (blacklist : List (List Char)) : List (List Char) :=
  filterLinks (findAllLinks content) blacklist

/-- Model of `doRequest` (main.go:201-248) applied to the oracle outcome
for the requested URL.  Result: updated state, returned content (`[]`
standing for Go `nil`), and whether the returned error is non-nil.  The
three error paths return before any counter or wait-bound update; on a
completed exchange the body length is added to the data meter first,
then the status dispatch updates the counters and — for 429 — raises
both wait bounds by 10 (main.go:230-240). -/
def doRequest (res : NetResult) (s : State) : State × List Char × Bool :=
  match res with
  | NetResult.reqError => (s, [], true)
  | NetResult.transportError => (s, [], true)
  | NetResult.readError content => (s, content, true)
  | NetResult.ok status body =>
    let s1 := { s with dataMeter := s.dataMeter + body.length }
    if status ≠ 200 then
      if status = 429 then
        ({ s1 with badRequests := s1.badRequests + 1,
                   minWait := s1.minWait + 10, maxWait := s1.maxWait + 10 }, body, false)
      else
        ({ s1 with badRequests := s1.badRequests + 1 }, body, false)
    else
      ({ s1 with goodRequests := s1.goodRequests + 1 }, body, false)

/-- Model of `recursiveBrowse` (main.go:155-190).  Besides the final
state it returns the unconsumed random stream and the trace of fetches
performed, as `(url, depth)` pairs in order.  Depth is a `Nat`: the Go
`int` depth is compared with `0` and decremented, and every depth the
claims speak about is non-negative.  At depth 0 the fetch result is
discarded (main.go:161-164); otherwise a fetch error or an empty valid
link list appends the URL to the blacklist and stops the branch, and
otherwise one random draw picks the sleep duration
(`rand.Intn(max_wait-min_wait+1)+min_wait`, read from the post-fetch
state) and a second draw picks the link to follow at depth `d`. -/
def recursiveBrowse (net : List Char → NetResult) :
    Nat → List Nat → List Char → State → State × List Nat × List (List Char × Nat)
  | 0, rng, url, s => ((doRequest (net url) s).1, rng, [(url, 0)])
  | d + 1, rng, url, s =>
    match doRequest (net url) s with
    | (s1, _, true) =>
      ({ s1 with blacklist := s1.blacklist ++ [url] }, rng, [(url, d + 1)])
    | (s1, content, false) =>
      let validLinks := getLinks content s1.blacklist
      if validLinks.length = 0 then
        ({ s1 with blacklist := s1.blacklist ++ [url] }, rng, [(url, d + 1)])
      else
        let draw1 := randIntn rng (s1.maxWait - s1.minWait + 1).toNat
        let draw2 := randIntn draw1.2 validLinks.length
        let r := recursiveBrowse net d draw2.2 (validLinks.getD draw2.1 []) s1
        (r.1, r.2.1, (url, d + 1) :: r.2.2)

/-- Model of the driver loop `run` (main.go:133-145) unrolled for `n`
iterations (the real loop runs forever; every claim about it concerns a
finite prefix).  Each iteration draws a root URL index over the
configured list, then a depth in `[min_depth, max_depth]`, browses, and
pauses 10 s (no modelled effect).  Note the root URL is taken from
`root_urls` without consulting the blacklist. -/
def runSteps (net : List Char → NetResult) :
    Nat → List Nat → State → State × List (List Char × Nat)
  | 0, _, s => (s, [])
  | n + 1, rng, s =>
    let draw1 := randIntn rng s.rootUrls.length
    let draw2 := randIntn draw1.2 (s.maxDepth - s.minDepth + 1).toNat
    let r := recursiveBrowse net ((draw2.1 + s.minDepth).toNat) draw2.2
      (s.rootUrls.getD draw1.1 []) s
    let rest := runSteps net n r.2.1 r.1
    (rest.1, r.2.2 ++ rest.2)

/-- Spec-side anchored occurrence, following §4.1 of the specification:
an occurrence of `href="U"` where `U` is `http://` or `https://`
followed by one or more non-quote characters; yields the enclosed URL
`U` itself and the remainder of the text after the occurrence. -/
def specMatchAt (s : List Char) : Option (List Char × List Char) :=
  match dropStart hrefMark s with
  | none => none
  | some s1 =>
    match schemeAt s1 with
    | none => none
    | some (scheme, s2) =>
      match s2.takeWhile (fun c => c != '"'), s2.dropWhile (fun c => c != '"') with
      | [], _ => none
      | _ :: _, [] => none
      | uh :: ut, c :: s4 =>
        if c = '"' then some (scheme ++ (uh :: ut), s4) else none

/-- Spec-side scan: the enclosed URL of every occurrence, in order of
first appearance, duplicates preserved, occurrences non-overlapping. -/
def specScanAux : Nat → List Char → List (List Char)
  | 0, _ => []
  | _ + 1, [] => []
  | f + 1, c :: t =>
    match specMatchAt (c :: t) with
    | some (u, rest) => u :: specScanAux f rest
    | none => specScanAux f t

/-- Spec-side link extraction (§4.1): the ordered sequence of enclosed
URLs of the `href="http(s)://…"` occurrences of the body. -/
def extractLinksSpec (body : List Char) : List (List Char) := specScanAux body.length body

/-- Boolean test that a URL is an absolute HTTP or HTTPS link. -/
def isHttpLink (u : List Char) : Bool :=
  beginsWith httpScheme u || beginsWith httpsScheme u

/-- The randomized-draw invariant of §3: each min bound is at most its
max bound, for the wait pair and the depth pair. -/
def waitDepthInv (s : State) : Prop :=
  s.minWait ≤ s.maxWait ∧ s.minDepth ≤ s.maxDepth

instance (s : State) : Decidable (waitDepthInv s) := by
  unfold waitDepthInv
  infer_instance

/-- Evolution relation between a state and any state the core can turn
it into: the blacklist only grows at the end, the wait bounds only move
up and always by the same amount on both ends, the depth bounds and the
root list never change, and the three counters never decrease. -/
def evolves (s t : State) : Prop :=
  (∃ ext, t.blacklist = s.blacklist ++ ext) ∧
  s.minWait ≤ t.minWait ∧
  t.maxWait - t.minWait = s.maxWait - s.minWait ∧
  t.minDepth = s.minDepth ∧ t.maxDepth = s.maxDepth ∧ t.rootUrls = s.rootUrls ∧
  s.dataMeter ≤ t.dataMeter ∧ s.goodRequests ≤ t.goodRequests ∧ s.badRequests ≤ t.badRequests

theorem evolves_refl (s : State) : evolves s s :=
  ⟨⟨[], (List.append_nil _).symm⟩, le_refl _, rfl, rfl, rfl, rfl,
    le_refl _, le_refl _, le_refl _⟩

theorem evolves_trans {s t u : State} (h1 : evolves s t) (h2 : evolves t u) : evolves s u := by
  obtain ⟨⟨e1, hb1⟩, hw1, hd1, hmd1, hxd1, hr1, hm1, hg1, hbad1⟩ := h1
  obtain ⟨⟨e2, hb2⟩, hw2, hd2, hmd2, hxd2, hr2, hm2, hg2, hbad2⟩ := h2
  refine ⟨⟨e1 ++ e2, ?_⟩, le_trans hw1 hw2, hd2.trans hd1, hmd2.trans hmd1,
    hxd2.trans hxd1, hr2.trans hr1, le_trans hm1 hm2, le_trans hg1 hg2,
    le_trans hbad1 hbad2⟩
  rw [hb2, hb1, List.append_assoc]

theorem evolves_maxWait_le {s t : State} (h : evolves s t) : s.maxWait ≤ t.maxWait := by
  obtain ⟨_, hw, hd, _⟩ := h
  omega

theorem evolves_inv {s t : State} (h : evolves s t) (hs : waitDepthInv s) : waitDepthInv t := by
  obtain ⟨_, hw, hd, hmd, hxd, _⟩ := h
  obtain ⟨h1, h2⟩ := hs
  constructor
  · omega
  · rw [hmd, hxd]; exact h2

theorem doRequest_evolves (res : NetResult) (s : State) : evolves s (doRequest res s).1 := by
  cases res with
  | reqError => exact evolves_refl s
  | transportError => exact evolves_refl s
  | readError c => exact evolves_refl s
  | ok status body =>
    simp only [doRequest]
    split
    · split
      · refine ⟨⟨[], (List.append_nil _).symm⟩, ?_, ?_, rfl, rfl, rfl, ?_, le_refl _, ?_⟩ <;>
          simp
      · refine ⟨⟨[], (List.append_nil _).symm⟩, le_refl _, rfl, rfl, rfl, rfl, ?_, le_refl _, ?_⟩ <;>
          simp
    · refine ⟨⟨[], (List.append_nil _).symm⟩, le_refl _, rfl, rfl, rfl, rfl, ?_, ?_, le_refl _⟩ <;>
        simp

theorem evolves_append_blacklist (t : State) (l : List (List Char)) :
    evolves t { t with blacklist := t.blacklist ++ l } :=
  ⟨⟨l, rfl⟩, le_refl _, rfl, rfl, rfl, rfl, le_refl _, le_refl _, le_refl _⟩

theorem doRequest_blacklist (res : NetResult) (s : State) :
    (doRequest res s).1.blacklist = s.blacklist := by
  cases res with
  | reqError => rfl
  | transportError => rfl
  | readError c => rfl
  | ok status body =>
    simp only [doRequest]
    split
    · split <;> rfl
    · rfl

theorem beginsWith_iff (pat : List Char) : ∀ s : List Char,
    beginsWith pat s = true ↔ ∃ rest, s = pat ++ rest := by
  induction pat with
  | nil => intro s; simp [beginsWith]
  | cons p ps ih =>
    intro s
    cases s with
    | nil =>
      simp only [beginsWith, List.cons_append]
      constructor
      · intro h; exact Bool.noConfusion h
      · rintro ⟨rest, h⟩; exact List.noConfusion h
    | cons c cs =>
      simp only [beginsWith, Bool.and_eq_true, beq_iff_eq, ih, List.cons_append]
      constructor
      · rintro ⟨rfl, rest, rfl⟩
        exact ⟨rest, rfl⟩
      · rintro ⟨rest, h⟩
        obtain ⟨h1, h2⟩ := List.cons.injEq c cs p (ps ++ rest) ▸ h
        exact ⟨h1.symm, rest, h2⟩

theorem strContains_iff (pat : List Char) : ∀ s : List Char,
    strContains pat s = true ↔ ∃ pre post, s = pre ++ pat ++ post := by
  intro s
  induction s with
  | nil =>
    simp only [strContains, beginsWith_iff]
    constructor
    · rintro ⟨rest, h⟩
      rcases List.append_eq_nil.mp h.symm with ⟨h1, h2⟩
      exact ⟨[], [], by simp [h1]⟩
    · rintro ⟨pre, post, h⟩
      rcases List.append_eq_nil.mp h.symm with ⟨h1, h2⟩
      rcases List.append_eq_nil.mp h1 with ⟨h3, h4⟩
      exact ⟨[], by simp [h4]⟩
  | cons c t ih =>
    simp only [strContains, Bool.or_eq_true, beginsWith_iff, ih]
    constructor
    · rintro (⟨rest, h⟩ | ⟨pre, post, h⟩)
      · exact ⟨[], rest, by simpa using h⟩
      · exact ⟨c :: pre, post, by simp [h]⟩
    · rintro ⟨pre, post, h⟩
      cases pre with
      | nil => exact Or.inl ⟨post, by simpa using h⟩
      | cons a pre2 =>
        right
        simp only [List.cons_append] at h
        injection h with h1 h2
        exact ⟨pre2, post, h2⟩

/-- C6: `isBlacklisted u bl` is true exactly when some blacklist entry
is a substring of `u` — substring semantics, not host-exact matching —
so blacklisting `facebook.com` also excludes
`facebook.com.evil.example`. -/
theorem claimC6_substring_semantics (u : List Char) (bl : List (List Char)) :
    (isBlacklisted u bl = true ↔ ∃ b ∈ bl, ∃ pre post, u = pre ++ b ++ post) ∧
    isBlacklisted ("facebook.com.evil.example".toList) ["facebook.com".toList] = true := by
  constructor
  · simp [isBlacklisted, List.any_eq_true, strContains_iff]
  · decide

theorem recursiveBrowse_zero (net : List Char → NetResult) (rng : List Nat)
    (url : List Char) (s : State) :
    recursiveBrowse net 0 rng url s = ((doRequest (net url) s).1, rng, [(url, 0)]) := rfl

theorem recursiveBrowse_succ_err (net : List Char → NetResult) (d : Nat) (rng : List Nat)
    (url : List Char) (s s1 : State) (content : List Char)
    (hdr : doRequest (net url) s = (s1, content, true)) :
    recursiveBrowse net (d + 1) rng url s
      = ({ s1 with blacklist := s1.blacklist ++ [url] }, rng, [(url, d + 1)]) := by
  simp only [recursiveBrowse, hdr]

theorem recursiveBrowse_succ_dead (net : List Char → NetResult) (d : Nat) (rng : List Nat)
    (url : List Char) (s s1 : State) (content : List Char)
    (hdr : doRequest (net url) s = (s1, content, false))
    (hl : getLinks content s1.blacklist = []) :
    recursiveBrowse net (d + 1) rng url s
      = ({ s1 with blacklist := s1.blacklist ++ [url] }, rng, [(url, d + 1)]) := by
  simp only [recursiveBrowse, hdr, hl, List.length_nil, eq_self_iff_true, if_true]

theorem recursiveBrowse_succ_follow (net : List Char → NetResult) (d : Nat) (rng : List Nat)
    (url : List Char) (s s1 : State) (content : List Char) (v2 : Nat) (rng2 : List Nat)
    (hdr : doRequest (net url) s = (s1, content, false))
    (hl : getLinks content s1.blacklist ≠ [])
    (hdraw : randIntn (randIntn rng (s1.maxWait - s1.minWait + 1).toNat).2
      (getLinks content s1.blacklist).length = (v2, rng2)) :
    recursiveBrowse net (d + 1) rng url s =
      ((recursiveBrowse net d rng2 ((getLinks content s1.blacklist).getD v2 []) s1).1,
       (recursiveBrowse net d rng2 ((getLinks content s1.blacklist).getD v2 []) s1).2.1,
       (url, d + 1) ::
         (recursiveBrowse net d rng2 ((getLinks content s1.blacklist).getD v2 []) s1).2.2) := by
  have hlen : ¬ (getLinks content s1.blacklist).length = 0 := by
    simpa [List.length_eq_zero] using hl
  simp only [recursiveBrowse, hdr, hdraw, if_neg hlen]

theorem rb_trace_head (net : List Char → NetResult) (d : Nat) (rng : List Nat)
    (url : List Char) (s : State) :
    ∃ rest, (recursiveBrowse net d rng url s).2.2 = (url, d) :: rest := by
  cases d with
  | zero => exact ⟨[], rfl⟩
  | succ d =>
    rcases hdr : doRequest (net url) s with ⟨s1, content, err⟩
    cases err with
    | true => rw [recursiveBrowse_succ_err net d rng url s s1 content hdr]; exact ⟨[], rfl⟩
    | false =>
      by_cases hl : getLinks content s1.blacklist = []
      · rw [recursiveBrowse_succ_dead net d rng url s s1 content hdr hl]; exact ⟨[], rfl⟩
      · rcases hdraw : randIntn (randIntn rng (s1.maxWait - s1.minWait + 1).toNat).2
          (getLinks content s1.blacklist).length with ⟨v2, rng2⟩
        rw [recursiveBrowse_succ_follow net d rng url s s1 content v2 rng2 hdr hl hdraw]
        exact ⟨_, rfl⟩

theorem recursiveBrowse_evolves (net : List Char → NetResult) (d : Nat) : ∀ (rng : List Nat)
    (url : List Char) (s : State), evolves s (recursiveBrowse net d rng url s).1 := by
  induction d with
  | zero =>
    intro rng url s
    exact doRequest_evolves (net url) s
  | succ d ih =>
    intro rng url s
    rcases hdr : doRequest (net url) s with ⟨s1, content, err⟩
    have he : evolves s s1 := by
      have h := doRequest_evolves (net url) s
      rw [hdr] at h
      exact h
    cases err with
    | true =>
      rw [recursiveBrowse_succ_err net d rng url s s1 content hdr]
      exact evolves_trans he (evolves_append_blacklist s1 [url])
    | false =>
      by_cases hl : getLinks content s1.blacklist = []
      · rw [recursiveBrowse_succ_dead net d rng url s s1 content hdr hl]
        exact evolves_trans he (evolves_append_blacklist s1 [url])
      · rcases hdraw : randIntn (randIntn rng (s1.maxWait - s1.minWait + 1).toNat).2
          (getLinks content s1.blacklist).length with ⟨v2, rng2⟩
        rw [recursiveBrowse_succ_follow net d rng url s s1 content v2 rng2 hdr hl hdraw]
        exact evolves_trans he (ih rng2 ((getLinks content s1.blacklist).getD v2 []) s1)

theorem runSteps_evolves (net : List Char → NetResult) (n : Nat) : ∀ (rng : List Nat)
    (s : State), evolves s (runSteps net n rng s).1 := by
  induction n with
  | zero => intro rng s; exact evolves_refl s
  | succ n ih =>
    intro rng s
    simp only [runSteps]
    exact evolves_trans
      (recursiveBrowse_evolves net _ _ _ s)
      (ih _ _)

theorem rb_trace_spec (net : List Char → NetResult) (d : Nat) : ∀ (rng : List Nat)
    (url : List Char) (s : State),
    (recursiveBrowse net d rng url s).2.2.length ≤ d + 1 ∧
    (recursiveBrowse net d rng url s).2.2.map Prod.snd
      = (List.range (recursiveBrowse net d rng url s).2.2.length).map (fun i => d - i) := by
  induction d with
  | zero =>
    intro rng url s
    constructor
    · simp [recursiveBrowse_zero]
    · simp [recursiveBrowse_zero, List.range_succ]
  | succ d ih =>
    intro rng url s
    rcases hdr : doRequest (net url) s with ⟨s1, content, err⟩
    cases err with
    | true =>
      rw [recursiveBrowse_succ_err net d rng url s s1 content hdr]
      constructor
      · simp
      · simp [List.range_succ]
    | false =>
      by_cases hl : getLinks content s1.blacklist = []
      · rw [recursiveBrowse_succ_dead net d rng url s s1 content hdr hl]
        constructor
        · simp
        · simp [List.range_succ]
      · rcases hdraw : randIntn (randIntn rng (s1.maxWait - s1.minWait + 1).toNat).2
          (getLinks content s1.blacklist).length with ⟨v2, rng2⟩
        rw [recursiveBrowse_succ_follow net d rng url s s1 content v2 rng2 hdr hl hdraw]
        obtain ⟨ih1, ih2⟩ := ih rng2 ((getLinks content s1.blacklist).getD v2 []) s1
        constructor
        · simpa using Nat.succ_le_succ ih1
        · simp only [List.map_cons, List.length_cons, List.range_succ_eq_map, List.map_map, ih2]
          simp [Function.comp, Nat.succ_sub_succ]

theorem filterLinks_not_bl : ∀ (ms bl : List (List Char)) (link : List Char),
    link ∈ filterLinks ms bl → isBlacklisted link bl = false := by
  intro ms
  induction ms with
  | nil => intro bl link h; exact absurd h (by simp [filterLinks])
  | cons m rest ih =>
    intro bl link h
    by_cases hb : isBlacklisted ((m.drop 6).dropLast) bl = true
    · simp only [filterLinks, if_pos hb] at h
      exact ih bl link h
    · simp only [filterLinks, if_neg hb] at h
      rcases List.mem_cons.mp h with rfl | h2
      · exact Bool.eq_false_iff.mpr hb
      · exact ih bl link h2

theorem getLinks_not_bl (content : List Char) (bl : List (List Char)) (link : List Char)
    (h : link ∈ getLinks content bl) : isBlacklisted link bl = false :=
  filterLinks_not_bl _ bl link h

theorem getD_mem : ∀ (l : List (List Char)) (n : Nat) (d : List Char),
    n < l.length → l.getD n d ∈ l := by
  intro l
  induction l with
  | nil => intro n d h; exact absurd h (by simp)
  | cons a t ih =>
    intro n d h
    cases n with
    | zero => rw [List.getD_cons_zero]; exact List.mem_cons_self a t
    | succ m =>
      rw [List.getD_cons_succ]
      exact List.mem_cons_of_mem a (ih m d (by simp at h; omega))

theorem randIntn_lt (rng : List Nat) (n : Nat) (h : 0 < n) : (randIntn rng n).1 < n := by
  cases rng with
  | nil => simpa [randIntn] using h
  | cons v rest => simpa [randIntn] using Nat.mod_lt v h

theorem rb_tail_not_blacklisted (net : List Char → NetResult) (d : Nat) : ∀ (rng : List Nat)
    (url : List Char) (s : State) (u : List Char),
    isBlacklisted u s.blacklist = true →
    ∀ e ∈ ((recursiveBrowse net d rng url s).2.2).tail, e.1 ≠ u := by
  induction d with
  | zero =>
    intro rng url s u hu e he
    simp [recursiveBrowse_zero] at he
  | succ d ih =>
    intro rng url s u hu e he
    rcases hdr : doRequest (net url) s with ⟨s1, content, err⟩
    have hbl : s1.blacklist = s.blacklist := by
      have h := doRequest_blacklist (net url) s
      rw [hdr] at h
      exact h
    cases err with
    | true =>
      rw [recursiveBrowse_succ_err net d rng url s s1 content hdr] at he
      simp at he
    | false =>
      by_cases hl : getLinks content s1.blacklist = []
      · rw [recursiveBrowse_succ_dead net d rng url s s1 content hdr hl] at he
        simp at he
      · rcases hdraw : randIntn (randIntn rng (s1.maxWait - s1.minWait + 1).toNat).2
          (getLinks content s1.blacklist).length with ⟨v2, rng2⟩
        rw [recursiveBrowse_succ_follow net d rng url s s1 content v2 rng2 hdr hl hdraw] at he
        simp only [List.tail_cons] at he
        obtain ⟨rest, hr⟩ :=
          rb_trace_head net d rng2 ((getLinks content s1.blacklist).getD v2 []) s1
        rw [hr] at he
        have hu1 : isBlacklisted u s1.blacklist = true := by rw [hbl]; exact hu
        rcases List.mem_cons.mp he with heq | h2
        · subst heq
          intro hequ
          have hlenpos : 0 < (getLinks content s1.blacklist).length :=
            List.length_pos.mpr hl
          have hv2 : v2 < (getLinks content s1.blacklist).length := by
            have hlt := randIntn_lt (randIntn rng (s1.maxWait - s1.minWait + 1).toNat).2
              (getLinks content s1.blacklist).length hlenpos
            rw [hdraw] at hlt
            exact hlt
          have hmem : (getLinks content s1.blacklist).getD v2 [] ∈ getLinks content s1.blacklist :=
            getD_mem _ v2 [] hv2
          have hfalse := getLinks_not_bl content s1.blacklist _ hmem
          simp only at hequ
          rw [hequ] at hfalse
          exact Bool.noConfusion (hu1.symm.trans hfalse)
        · exact ih rng2 ((getLinks content s1.blacklist).getD v2 []) s1 u hu1 e
            (by rw [hr]; simpa using h2)

theorem doRequest_ok_snd (status : Int) (body : List Char) (s : State) :
    (doRequest (NetResult.ok status body) s).2 = (body, false) := by
  simp only [doRequest]
  split
  · split <;> rfl
  · rfl

/-- C1 (amended): a URL whose fetch fails with a transport error during
a traversal step with depth ≥ 1 is appended to the blacklist by that
call (exactly one new occurrence, at the end) and the branch performs
no further fetch; and a URL that is blacklisted when a traversal starts
is never fetched as a followed link anywhere in that traversal.  The
driver loop, however, does not consult the blacklist when selecting
root URLs, so such a URL can be fetched — and appended to the blacklist
— again as a root (see the counterexample), which refutes the claim's
"never fetched again" and "exactly once" parts as stated. -/
theorem claimC1_transport_error_blacklisting (net : List Char → NetResult) (rng : List Nat)
    (url : List Char) (d : Nat) (s : State) (u : List Char) :
    (net url = NetResult.transportError →
      recursiveBrowse net (d + 1) rng url s
        = ({ s with blacklist := s.blacklist ++ [url] }, rng, [(url, d + 1)])) ∧
    (isBlacklisted u s.blacklist = true →
      ∀ e ∈ ((recursiveBrowse net d rng url s).2.2).tail, e.1 ≠ u) := by
  constructor
  · intro h
    have hdr : doRequest (net url) s = (s, [], true) := by rw [h]; rfl
    exact recursiveBrowse_succ_err net d rng url s s [] hdr
  · exact rb_tail_not_blacklisted net d rng url s u

/-- State used by the closed witnesses: one entry `x` on the blacklist,
defaults otherwise. -/
def wexState : State :=
  { rootUrls := [], blacklist := ["x".toList], minDepth := 1, maxDepth := 1,
    minWait := 5, maxWait := 10, dataMeter := 0, goodRequests := 0, badRequests := 0 }

/-- Witness for C1 (amended): concrete traversal from a state whose
blacklist holds `x`; the root fetch fails by transport error at depth 1,
the URL is appended to the blacklist, the branch performs no second
fetch, and no followed link of the traversal equals `x`. -/
theorem claimC1_witness :
    recursiveBrowse (fun _ => NetResult.transportError) 1 [] ("http://a.example".toList) wexState
      = ({ wexState with blacklist := wexState.blacklist ++ ["http://a.example".toList] }, [],
          [("http://a.example".toList, 1)]) ∧
    ∀ e ∈ ((recursiveBrowse (fun _ => NetResult.transportError) 1 []
        ("http://a.example".toList) wexState).2.2).tail, e.1 ≠ ("x".toList) :=
  ⟨(claimC1_transport_error_blacklisting (fun _ => NetResult.transportError) []
      ("http://a.example".toList) 0 wexState ("x".toList)).1 rfl,
   (claimC1_transport_error_blacklisting (fun _ => NetResult.transportError) []
      ("http://a.example".toList) 1 wexState ("x".toList)).2 (by decide)⟩

/-- Root URL of the counterexample run. -/
def cexUrl : List Char := "http://root.example".toList

/-- Network oracle of the counterexample run: every fetch fails with a
transport error. -/
def cexNet : List Char → NetResult := fun _ => NetResult.transportError

/-- Start state of the counterexample run: a single root URL, empty
blacklist, depth bounds pinned to 1. -/
def cexState : State :=
  { rootUrls := [cexUrl], blacklist := [], minDepth := 1, maxDepth := 1,
    minWait := 5, maxWait := 10, dataMeter := 0, goodRequests := 0, badRequests := 0 }

/-- Counterexample to C1 as stated: the first driver iteration fetches
the root URL at depth 1, the fetch fails with a transport error, and
the URL is blacklisted; the second iteration nevertheless fetches the
very same URL again — root selection does not consult the blacklist —
and appends it to the blacklist a second time.  So a URL whose fetch
failed with a transport error is fetched again as a root URL, and
afterwards does not appear in the blacklist exactly once. -/
theorem claimC1_counterexample :
    (runSteps cexNet 1 [] cexState).1.blacklist = [cexUrl] ∧
    (runSteps cexNet 1 [] cexState).2 = [(cexUrl, 1)] ∧
    (runSteps cexNet 2 [] cexState).2 = [(cexUrl, 1), (cexUrl, 1)] ∧
    (runSteps cexNet 2 [] cexState).1.blacklist = [cexUrl, cexUrl] := by
  decide

/-- C2: a fetch observing HTTP status 429 raises both configured wait
bounds by exactly 10 each; the increase is cumulative across
occurrences (two consecutive 429s add 20 to each bound), and no
operation of the core — fetcher, traversal engine or driver loop — ever
decreases either bound, with no upper cap. -/
theorem claimC2_backoff_ratchet (body bodyB : List Char) (s : State) (res : NetResult)
    (net : List Char → NetResult) (d n : Nat) (rng : List Nat) (url : List Char) :
    ((doRequest (NetResult.ok 429 body) s).1.minWait = s.minWait + 10 ∧
     (doRequest (NetResult.ok 429 body) s).1.maxWait = s.maxWait + 10) ∧
    ((doRequest (NetResult.ok 429 bodyB) ((doRequest (NetResult.ok 429 body) s).1)).1.minWait
        = s.minWait + 20 ∧
     (doRequest (NetResult.ok 429 bodyB) ((doRequest (NetResult.ok 429 body) s).1)).1.maxWait
        = s.maxWait + 20) ∧
    (s.minWait ≤ (doRequest res s).1.minWait ∧ s.maxWait ≤ (doRequest res s).1.maxWait) ∧
    (s.minWait ≤ (recursiveBrowse net d rng url s).1.minWait ∧
     s.maxWait ≤ (recursiveBrowse net d rng url s).1.maxWait) ∧
    (s.minWait ≤ (runSteps net n rng s).1.minWait ∧
     s.maxWait ≤ (runSteps net n rng s).1.maxWait) := by
  have h429 : ∀ (b : List Char) (t : State),
      (doRequest (NetResult.ok 429 b) t).1.minWait = t.minWait + 10 ∧
      (doRequest (NetResult.ok 429 b) t).1.maxWait = t.maxWait + 10 := fun b t => ⟨rfl, rfl⟩
  refine ⟨h429 body s, ⟨?_, ?_⟩, ⟨?_, ?_⟩, ⟨?_, ?_⟩, ⟨?_, ?_⟩⟩
  · rw [(h429 bodyB _).1, (h429 body s).1]; ring
  · rw [(h429 bodyB _).2, (h429 body s).2]; ring
  · exact (doRequest_evolves res s).2.1
  · exact evolves_maxWait_le (doRequest_evolves res s)
  · exact (recursiveBrowse_evolves net d rng url s).2.1
  · exact evolves_maxWait_le (recursiveBrowse_evolves net d rng url s)
  · exact (runSteps_evolves net n rng s).2.1
  · exact evolves_maxWait_le (runSteps_evolves net n rng s)

/-- C3: a traversal starting at depth `d` performs at most `d + 1`
fetches; the fetch trace is made at depths `d, d-1, d-2, …` — the depth
argument strictly decreases by exactly 1 on each recursive step — and
an invocation at depth 0 performs exactly one fetch and recurses no
further. -/
theorem claimC3_depth_bound (net : List Char → NetResult) (d : Nat) (rng : List Nat)
    (url : List Char) (s : State) :
    (recursiveBrowse net d rng url s).2.2.length ≤ d + 1 ∧
    (recursiveBrowse net d rng url s).2.2.map Prod.snd
      = (List.range (recursiveBrowse net d rng url s).2.2.length).map (fun i => d - i) ∧
    recursiveBrowse net 0 rng url s = ((doRequest (net url) s).1, rng, [(url, 0)]) :=
  ⟨(rb_trace_spec net d rng url s).1, (rb_trace_spec net d rng url s).2, rfl⟩

/-- C4: assuming the initial configuration satisfies
`min_wait ≤ max_wait` and `min_depth ≤ max_depth`, every operation of
the core preserves the invariant — the only mutation of the wait bounds
(the 429 backoff) moves both by the same amount, keeping their
difference constant, and the depth bounds are never mutated at all. -/
theorem claimC4_wait_invariant (res : NetResult) (net : List Char → NetResult) (d n : Nat)
    (rng : List Nat) (url : List Char) (s : State) :
    (waitDepthInv s →
      waitDepthInv (doRequest res s).1 ∧
      waitDepthInv (recursiveBrowse net d rng url s).1 ∧
      waitDepthInv (runSteps net n rng s).1) ∧
    ((doRequest res s).1.maxWait - (doRequest res s).1.minWait = s.maxWait - s.minWait) ∧
    ((doRequest res s).1.minDepth = s.minDepth ∧ (doRequest res s).1.maxDepth = s.maxDepth) ∧
    ((recursiveBrowse net d rng url s).1.minDepth = s.minDepth ∧
     (recursiveBrowse net d rng url s).1.maxDepth = s.maxDepth) ∧
    ((runSteps net n rng s).1.minDepth = s.minDepth ∧
     (runSteps net n rng s).1.maxDepth = s.maxDepth) := by
  refine ⟨fun hs => ⟨evolves_inv (doRequest_evolves res s) hs,
      evolves_inv (recursiveBrowse_evolves net d rng url s) hs,
      evolves_inv (runSteps_evolves net n rng s) hs⟩, ?_, ?_, ?_, ?_⟩
  · exact (doRequest_evolves res s).2.2.1
  · exact ⟨(doRequest_evolves res s).2.2.2.1, (doRequest_evolves res s).2.2.2.2.1⟩
  · exact ⟨(recursiveBrowse_evolves net d rng url s).2.2.2.1,
      (recursiveBrowse_evolves net d rng url s).2.2.2.2.1⟩
  · exact ⟨(runSteps_evolves net n rng s).2.2.2.1,
      (runSteps_evolves net n rng s).2.2.2.2.1⟩

/-- Witness for C4 at a concrete configuration satisfying the
invariant, exercised through the fetcher (with a 429), the traversal
engine and the driver loop. -/
theorem claimC4_witness :
    waitDepthInv (doRequest (NetResult.ok 429 []) wexState).1 ∧
    waitDepthInv (recursiveBrowse (fun _ => NetResult.ok 429 []) 2 []
      ("http://a.example".toList) wexState).1 ∧
    waitDepthInv (runSteps (fun _ => NetResult.ok 429 []) 1 [] wexState).1 :=
  (claimC4_wait_invariant (NetResult.ok 429 []) (fun _ => NetResult.ok 429 []) 2 1 []
    ("http://a.example".toList) wexState).1 (by decide)

/-- C7: a fetch that completes the HTTP exchange never yields an error:
the body is returned with a nil error whatever the status; a status ≠
200 increments the bad-request counter and a status of 200 increments
the good-request counter; and an error result occurs exactly for the
three ways the HTTP transaction itself can fail — request construction,
transport, body read — never from a status code. -/
theorem claimC7_no_status_errors (status : Int) (body : List Char) (s : State) :
    (doRequest (NetResult.ok status body) s).2 = (body, false) ∧
    (doRequest (NetResult.ok status body) s).1.badRequests
      = s.badRequests + (if status = 200 then 0 else 1) ∧
    (doRequest (NetResult.ok status body) s).1.goodRequests
      = s.goodRequests + (if status = 200 then 1 else 0) ∧
    (∀ res : NetResult, (doRequest res s).2.2 = true ↔
      (res = NetResult.reqError ∨ res = NetResult.transportError ∨
        ∃ p, res = NetResult.readError p)) := by
  refine ⟨doRequest_ok_snd status body s, ?_, ?_, ?_⟩
  · by_cases h : status = 200
    · simp [doRequest, h]
    · simp only [doRequest]
      rw [if_pos h, if_neg h]
      split <;> simp
  · by_cases h : status = 200
    · simp [doRequest, h]
    · simp only [doRequest]
      rw [if_pos h, if_neg h]
      split <;> simp
  · intro res
    cases res with
    | reqError => simp [doRequest]
    | transportError => simp [doRequest]
    | readError p => simp [doRequest]
    | ok st b =>
      simp only [doRequest]
      split
      · split <;> simp
      · simp

/-- C8: a traversal step at depth ≥ 1 whose fetch completes but whose
page yields zero valid (non-blacklisted) links appends the fetched URL
to the blacklist and stops — one single fetch, no recursion: a dead
end, not an error. -/
theorem claimC8_dead_end (net : List Char → NetResult) (rng : List Nat) (url : List Char)
    (d : Nat) (s : State) (status : Int) (body : List Char)
    (hnet : net url = NetResult.ok status body)
    (hdead : getLinks body s.blacklist = []) :
    recursiveBrowse net (d + 1) rng url s
      = ({ (doRequest (NetResult.ok status body) s).1 with
            blacklist := s.blacklist ++ [url] }, rng, [(url, d + 1)]) := by
  rcases h : doRequest (NetResult.ok status body) s with ⟨s1, c, e⟩
  have h2 := doRequest_ok_snd status body s
  rw [h] at h2
  simp only [Prod.mk.injEq] at h2
  obtain ⟨hc, he⟩ := h2
  rw [hc, he] at h
  have hbl : s1.blacklist = s.blacklist := by
    have h3 := doRequest_blacklist (NetResult.ok status body) s
    rw [h] at h3
    exact h3
  have hdr : doRequest (net url) s = (s1, body, false) := by rw [hnet, h]
  rw [recursiveBrowse_succ_dead net d rng url s s1 body hdr (by rw [hbl]; exact hdead)]
  rw [hbl]

/-- Witness for C8: a fetch that succeeds with status 200 on a body
containing no links; the URL is blacklisted and the branch stops. -/
theorem claimC8_witness :
    recursiveBrowse (fun _ => NetResult.ok 200 ("hello".toList)) 1 []
        ("http://a.example".toList) wexState
      = ({ (doRequest (NetResult.ok 200 ("hello".toList)) wexState).1 with
            blacklist := wexState.blacklist ++ ["http://a.example".toList] }, [],
          [("http://a.example".toList, 1)]) :=
  claimC8_dead_end (fun _ => NetResult.ok 200 ("hello".toList)) []
    ("http://a.example".toList) 0 wexState 200 ("hello".toList) rfl (by decide)

/-- C9: every fetch that fully reads a response body adds the body's
length to the cumulative data meter regardless of status code, and the
good-request count, bad-request count and data meter never decrease
under the fetcher, the traversal engine or the driver loop. -/
theorem claimC9_counters (status : Int) (body : List Char) (res : NetResult)
    (net : List Char → NetResult) (d n : Nat) (rng : List Nat) (url : List Char) (s : State) :
    ((doRequest (NetResult.ok status body) s).1.dataMeter = s.dataMeter + body.length) ∧
    (s.dataMeter ≤ (doRequest res s).1.dataMeter ∧
     s.goodRequests ≤ (doRequest res s).1.goodRequests ∧
     s.badRequests ≤ (doRequest res s).1.badRequests) ∧
    (s.dataMeter ≤ (recursiveBrowse net d rng url s).1.dataMeter ∧
     s.goodRequests ≤ (recursiveBrowse net d rng url s).1.goodRequests ∧
     s.badRequests ≤ (recursiveBrowse net d rng url s).1.badRequests) ∧
    (s.dataMeter ≤ (runSteps net n rng s).1.dataMeter ∧
     s.goodRequests ≤ (runSteps net n rng s).1.goodRequests ∧
     s.badRequests ≤ (runSteps net n rng s).1.badRequests) := by
  refine ⟨?_, ?_, ?_, ?_⟩
  · simp only [doRequest]
    split
    · split <;> rfl
    · rfl
  · exact ⟨(doRequest_evolves res s).2.2.2.2.2.2.1,
      (doRequest_evolves res s).2.2.2.2.2.2.2.1,
      (doRequest_evolves res s).2.2.2.2.2.2.2.2⟩
  · exact ⟨(recursiveBrowse_evolves net d rng url s).2.2.2.2.2.2.1,
      (recursiveBrowse_evolves net d rng url s).2.2.2.2.2.2.2.1,
      (recursiveBrowse_evolves net d rng url s).2.2.2.2.2.2.2.2⟩
  · exact ⟨(runSteps_evolves net n rng s).2.2.2.2.2.2.1,
      (runSteps_evolves net n rng s).2.2.2.2.2.2.2.1,
      (runSteps_evolves net n rng s).2.2.2.2.2.2.2.2⟩

/-- C10: every error return of the fetcher — request construction
failure, transport failure, or body-read failure — leaves the shared
state completely unchanged: all counters, the data meter and both wait
bounds keep their pre-call values. -/
theorem claimC10_error_atomicity (s : State) (content : List Char) :
    doRequest NetResult.reqError s = (s, [], true) ∧
    doRequest NetResult.transportError s = (s, [], true) ∧
    doRequest (NetResult.readError content) s = (s, content, true) :=
  ⟨rfl, rfl, rfl⟩

theorem drop6_hrefMark (x : List Char) : (hrefMark ++ x).drop 6 = x := rfl

theorem specMatchAt_eq (s : List Char) :
    specMatchAt s = (matchHrefAt s).map (fun p => ((p.1.drop 6).dropLast, p.2)) := by
  unfold specMatchAt matchHrefAt
  split
  · rfl
  · split
    · rfl
    · split
      · rfl
      · rfl
      · split
        · simp only [Option.map_some', Option.some.injEq, Prod.mk.injEq]
          constructor
          · rw [drop6_hrefMark, List.dropLast_concat]
          · trivial
        · rfl

theorem filterLinks_nil : ∀ ms : List (List Char),
    filterLinks ms [] = ms.map (fun l => (l.drop 6).dropLast) := by
  intro ms
  induction ms with
  | nil => rfl
  | cons m rest ih => simp [filterLinks, isBlacklisted, ih]

theorem scan_map : ∀ (f : Nat) (s : List Char),
    (findAllAux f s).map (fun l => (l.drop 6).dropLast) = specScanAux f s := by
  intro f
  induction f with
  | zero => intro s; rfl
  | succ f ih =>
    intro s
    cases s with
    | nil => rfl
    | cons c t =>
      simp only [findAllAux, specScanAux, specMatchAt_eq]
      cases h : matchHrefAt (c :: t) with
      | none => simpa using ih t
      | some p =>
        rcases p with ⟨m, rest⟩
        simpa using ih rest

theorem beginsWith_append (pat rest : List Char) : beginsWith pat (pat ++ rest) = true := by
  induction pat with
  | nil => rfl
  | cons p ps ih => simp [beginsWith, ih]

theorem schemeAt_cases (s scheme r : List Char) (h : schemeAt s = some (scheme, r)) :
    scheme = httpsScheme ∨ scheme = httpScheme := by
  unfold schemeAt at h
  split at h
  · left
    simp only [Option.some.injEq, Prod.mk.injEq] at h
    exact h.1.symm
  · split at h
    · right
      simp only [Option.some.injEq, Prod.mk.injEq] at h
      exact h.1.symm
    · exact absurd h (by simp)

theorem specMatchAt_http (s u rest : List Char) (h : specMatchAt s = some (u, rest)) :
    isHttpLink u = true := by
  unfold specMatchAt at h
  split at h
  · exact absurd h (by simp)
  · split at h
    · exact absurd h (by simp)
    · split at h
      · exact absurd h (by simp)
      · exact absurd h (by simp)
      · split at h
        · rename_i scheme s2 hsch xg1 xg2 uh ut c s4 htk hdw hc
          simp only [Option.some.injEq, Prod.mk.injEq] at h
          obtain ⟨hu, -⟩ := h
          subst hu
          rcases schemeAt_cases _ scheme s2 hsch with hs | hs <;>
            simp [hs, isHttpLink, beginsWith_append]
        · exact absurd h (by simp)

theorem specScanAux_all_http : ∀ (f : Nat) (s : List Char),
    (specScanAux f s).all isHttpLink = true := by
  intro f
  induction f with
  | zero => intro s; rfl
  | succ f ih =>
    intro s
    cases s with
    | nil => rfl
    | cons c t =>
      simp only [specScanAux]
      cases h : specMatchAt (c :: t) with
      | none => exact ih t
      | some p =>
        rcases p with ⟨u, rest⟩
        simp only [List.all_cons, ih rest, Bool.and_true]
        exact specMatchAt_http (c :: t) u rest h

/-- C5: link extraction with an empty blacklist returns exactly the
URLs enclosed in the `href="http(s)://…"` occurrences of the body — in
order of first appearance, duplicates preserved, and an occurrence-free
body giving the empty sequence rather than an error (the function is
total by construction) — and every returned link is an absolute
HTTP(S) URL, so relative, `mailto:` and `javascript:` links are never
returned. -/
theorem claimC5_link_extraction (content : List Char) :
    getLinks content [] = extractLinksSpec content ∧
    (getLinks content []).all isHttpLink = true := by
  have hmain : getLinks content [] = extractLinksSpec content := by
    unfold getLinks extractLinksSpec findAllLinks
    rw [filterLinks_nil, scan_map]
  refine ⟨hmain, ?_⟩
  rw [hmain]
  exact specScanAux_all_http content.length content
